import Mathlib

/-!
# Verification of the tagger-script engine (`picard/tagz.py`)

Shallow embedding of the script parser/evaluator from `picard/tagz.py`:
the `re.Scanner`-driven tokenizer (`_re_text`, `_re_var`, `_re_func`),
the evaluating actions (`s_text`, `s_variable`, `s_args_sep`, `s_func`),
the argument-splitting loop of `TagzParser.s_func`, the builtin function
catalog (`TagzBuiltins._functions`) and the entry point
`TagzParser.evaluate`.

Conventions of the embedding:
* Python strings are `String` / `List Char`; the mutable context dict is an
  association list `Ctx` threaded through evaluation (insertion order
  preserved, overwrite in place, like a Python dict).
* Python exceptions are the `TagzError` inductive; evaluation returns
  `(Except TagzError α) × Ctx` so that context mutations performed before a
  failure survive it, exactly as in-place dict mutation does.
* The scanner's regexes are modelled by deterministic maximal-munch
  matchers that follow the regex alternation order.  The reference engine
  can in principle backtrack across an escaped-paren reading when the
  deterministic reading dead-ends (e.g. an argument span ending in a lone
  backslash right before the closing parenthesis); such inputs are outside
  the deterministic model.
* Recursion over nested calls is driven by a fuel parameter (structural,
  so that everything computes by `decide`/`rfl`); `evaluate` supplies
  `length + 1` fuel, which is always sufficient since every token consumes
  at least one character.
-/

/-- The caller-supplied mutable mapping from variable names to values
(`context` in the source), as an insertion-ordered association list. -/
abbrev Ctx := List (String × String)

/-- `context[key]` lookup (raises `KeyError` in Python, here `none`). -/
def ctxGet : Ctx → String → Option String
  | [], _ => none
  | (k, v) :: t, key => if k = key then some v else ctxGet t key

/-- `context[key] = val`: overwrite in place, or append a new entry. -/
def ctxSet : Ctx → String → String → Ctx
  | [], key, val => [(key, val)]
  | (k, v) :: t, key, val =>
    if k = key then (k, val) :: t else (k, v) :: ctxSet t key val

/-- The exceptions that can escape `TagzParser.evaluate`:
`parseError` is `TagzParseError`, `unknownFunction` is
`TagzUnknownFunction` (carrying the function name), `valueError` is
Python's `ValueError` from `int(...)`, `zeroDivision` is Python's
`ZeroDivisionError`, `argError` is the `TypeError`/`IndexError` raised on
a wrong argument count.  `outOfFuel` is an artifact of the fuel-based
embedding and is never produced when the fuel exceeds the input length. -/
inductive TagzError where
  | parseError (remainder : String)
  | unknownFunction (name : String)
  | valueError
  | zeroDivision
  | argError
  | outOfFuel
  deriving Repr, DecidableEq

deriving instance DecidableEq for Except

/-- Result of one builtin call: Python's return-or-raise plus the
(possibly mutated) context. -/
abbrev FuncOut := (Except TagzError String) × Ctx

/-- The type of entries of the function registry: context plus
already-evaluated string arguments. -/
abbrev FuncImpl := Ctx → List String → FuncOut

/-- `"".join(args)`. -/
def joinAll : List String → String
  | [] => ""
  | s :: t => s ++ joinAll t

/-- Python 2 `str.lower` (ASCII). -/
def lowerChar (c : Char) : Char :=
  if 'A' ≤ c ∧ c ≤ 'Z' then Char.ofNat (c.toNat + 32) else c

/-- Python 2 `str.upper` (ASCII). -/
def upperChar (c : Char) : Char :=
  if 'a' ≤ c ∧ c ≤ 'z' then Char.ofNat (c.toNat - 32) else c

def lowerStr (s : String) : String := String.mk (s.data.map lowerChar)

def upperStr (s : String) : String := String.mk (s.data.map upperChar)

/-- Python 2 `\s` (ASCII whitespace). -/
def wsChar (c : Char) : Bool :=
  c = ' ' ∨ c = '\t' ∨ c = '\n' ∨ c = '\x0d' ∨ c = '\x0b' ∨ c = '\x0c'

/-- `int(s)` for an optionally signed run of decimal digits; `none` is
Python's `ValueError`.  (Python additionally tolerates surrounding
whitespace, which no builtin relies on and which is not modelled.) -/
def parseDigits (l : List Char) : Option Nat :=
  if l ≠ [] ∧ l.all Char.isDigit then
    some (l.foldl (fun n c => n * 10 + (c.toNat - 48)) 0)
  else none

def parseInt (s : String) : Option Int :=
  match s.data with
  | '-' :: ds => (parseDigits ds).map (fun n => -(n : Int))
  | '+' :: ds => (parseDigits ds).map (fun n => (n : Int))
  | ds => (parseDigits ds).map (fun n => (n : Int))

/-- Python `text[:n]` (slice with clamping; a negative stop counts from
the end). -/
def pySliceTo (t : String) (n : Int) : String :=
  let len : Int := t.length
  let stop := if n < 0 then max (len + n) 0 else min n len
  String.mk (t.data.take stop.toNat)

/-- Python `text[n:]` (slice with clamping; a negative start counts from
the end). -/
def pySliceFrom (t : String) (n : Int) : String :=
  let len : Int := t.length
  let start := if n < 0 then max (len + n) 0 else min n len
  String.mk (t.data.drop start.toNat)

/-- `text.strip()`: trim ASCII whitespace from both ends. -/
def pyStrip (s : String) : String :=
  String.mk (((s.data.dropWhile wsChar).reverse.dropWhile wsChar).reverse)

/-- `text.strip(chars)`: trim any of the given characters from both
ends. -/
def pyStripSet (s : String) (chars : String) : String :=
  let p := fun c => c ∈ chars.data
  String.mk (((s.data.dropWhile p).reverse.dropWhile p).reverse)

/-- One step of `re.sub("\s+", " ", text)`: collapse each maximal
whitespace run to a single space. -/
def collapseWs : List Char → List Char
  | [] => []
  | [c] => [if wsChar c then ' ' else c]
  | c1 :: c2 :: t =>
    if wsChar c1 ∧ wsChar c2 then collapseWs (c2 :: t)
    else (if wsChar c1 then ' ' else c1) :: collapseWs (c2 :: t)

/-- `text.replace(old, new)` for non-empty `old`: leftmost non-overlapping
replacement. -/
def replLoop (old new : List Char) : List Char → List Char
  | [] => []
  | c :: t =>
    if old.isPrefixOf (c :: t) then
      new ++ replLoop old new (t.drop (old.length - 1))
    else c :: replLoop old new t
termination_by l => l.length
decreasing_by
  · simpa using Nat.lt_succ_of_le (Nat.sub_le _ _)
  · simp

/-- `text.replace(old, new)`, including Python's empty-`old` behavior
(insert `new` at every character boundary). -/
def pyReplace (s old new : String) : String :=
  if old.data = [] then
    String.mk (new.data ++ (s.data.flatMap (fun c => c :: new.data)))
  else
    String.mk (replLoop old.data new.data s.data)

/-- `char * n` (empty for a non-positive count). -/
def strRepeat (s : String) (k : Int) : String :=
  if k ≤ 0 then "" else joinAll (List.replicate k.toNat s)

/-- `"%0Nd" % v`: zero-pad the decimal representation after the sign.
(Python's behavior for a negative width — left-justification with
spaces — is not modelled; no claim concerns it.) -/
def zeroPadInt (v : Int) (w : Int) : String :=
  let s := toString v
  if (s.length : Int) ≥ w then s
  else if v < 0 then
    "-" ++ String.mk (List.replicate (w.toNat - s.length) '0') ++
      String.mk (s.data.drop 1)
  else String.mk (List.replicate (w.toNat - s.length) '0') ++ s

/-! ## The builtin function catalog (`TagzBuiltins._functions`)

Every builtin except `func_set` returns its result paired with the
context unchanged — in the source only `func_set` mutates the context.
Wrong argument counts raise (`TypeError`/`IndexError`), modelled by
`.argError`. -/

/-- `func_noop`: concatenates all arguments. -/
def func_noop : FuncImpl := fun ctx args => (.ok (joinAll args), ctx)

/-- `func_if`: if `args[0]` is non-empty return `args[1]`, else `args[2]`
when exactly three arguments were given, else `""`. -/
def func_if : FuncImpl := fun ctx args =>
  (match args with
   | [] => .error .argError
   | a :: rest =>
     if a ≠ "" then
       match rest with
       | b :: _ => .ok b
       | [] => .error .argError
     else
       match rest with
       | [_, c] => .ok c
       | _ => .ok "", ctx)

/-- `func_if2`: first non-empty argument, else the last argument. -/
def func_if2 : FuncImpl := fun ctx args =>
  (match args.find? (fun a => a != "") with
   | some a => .ok a
   | none =>
     match args.getLast? with
     | some a => .ok a
     | none => .error .argError, ctx)

/-- `func_left`: `text[:int(length)]`. -/
def func_left : FuncImpl := fun ctx args =>
  (match args with
   | [text, len] =>
     match parseInt len with
     | some n => .ok (pySliceTo text n)
     | none => .error .valueError
   | _ => .error .argError, ctx)

/-- `func_right`: `text[-int(length):]`. -/
def func_right : FuncImpl := fun ctx args =>
  (match args with
   | [text, len] =>
     match parseInt len with
     | some n => .ok (pySliceFrom text (-n))
     | none => .error .valueError
   | _ => .error .argError, ctx)

/-- `func_lower`. -/
def func_lower : FuncImpl := fun ctx args =>
  (match args with
   | [text] => .ok (lowerStr text)
   | _ => .error .argError, ctx)

/-- `func_upper`. -/
def func_upper : FuncImpl := fun ctx args =>
  (match args with
   | [text] => .ok (upperStr text)
   | _ => .error .argError, ctx)

/-- `func_pad`: `char * (int(length) - len(text)) + text`. -/
def func_pad : FuncImpl := fun ctx args =>
  (match args with
   | [text, len, ch] =>
     match parseInt len with
     | some n => .ok (strRepeat ch (n - text.length) ++ text)
     | none => .error .valueError
   | _ => .error .argError, ctx)

/-- `func_strip`: `re.sub("\s+", " ", text).strip()`. -/
def func_strip : FuncImpl := fun ctx args =>
  (match args with
   | [text] => .ok (pyStrip (String.mk (collapseWs text.data)))
   | _ => .error .argError, ctx)

/-- `func_replace`: literal `text.replace(old, new)`. -/
def func_replace : FuncImpl := fun ctx args =>
  (match args with
   | [text, old, new] => .ok (pyReplace text old new)
   | _ => .error .argError, ctx)

/-- `func_rreplace`: `re.sub(old, new, text)`.  The regular-expression
machinery is outside the embedding; the pattern is treated as a literal
substring.  Only the arity and the absence of context mutation of this
entry are relied upon by any theorem below. -/
def func_rreplace : FuncImpl := fun ctx args =>
  (match args with
   | [text, old, new] => .ok (pyReplace text old new)
   | _ => .error .argError, ctx)

/-- `func_rsearch`: `re.search(pattern, text)` and capture group 1.  The
regular-expression machinery is outside the embedding; the no-match
result `""` stands for the search.  Only the arity and the absence of
context mutation of this entry are relied upon by any theorem below. -/
def func_rsearch : FuncImpl := fun ctx args =>
  (match args with
   | [_, _] => .ok ""
   | _ => .error .argError, ctx)

/-- `func_num`: `("%%0%dd" % int(length)) % int(text)`. -/
def func_num : FuncImpl := fun ctx args =>
  (match args with
   | [text, len] =>
     match parseInt len, parseInt text with
     | some w, some v => .ok (zeroPadInt v w)
     | _, _ => .error .valueError
   | _ => .error .argError, ctx)

/-- `func_set`: `context[name] = value; return ""` — the raw `name` is
used as the key, with no case normalization.  The single
context-mutating builtin. -/
def func_set : FuncImpl := fun ctx args =>
  match args with
  | [name, value] => (.ok "", ctxSet ctx name value)
  | _ => (.error .argError, ctx)

/-- `func_get`: `context.get(name, "")` — again the raw name. -/
def func_get : FuncImpl := fun ctx args =>
  (match args with
   | [name] =>
     .ok (match ctxGet ctx name with | some v => v | none => "")
   | _ => .error .argError, ctx)

/-- `func_trim` (defined in the source but never registered in
`TagzBuiltins._functions`). -/
def func_trim : FuncImpl := fun ctx args =>
  (match args with
   | [text] => .ok (pyStrip text)
   | [text, ch] => if ch ≠ "" then .ok (pyStripSet text ch) else .ok (pyStrip text)
   | _ => .error .argError, ctx)

/-- `func_add`: `str(int(x) + int(y))`. -/
def func_add : FuncImpl := fun ctx args =>
  (match args with
   | [x, y] =>
     match parseInt x, parseInt y with
     | some a, some b => .ok (toString (a + b))
     | _, _ => .error .valueError
   | _ => .error .argError, ctx)

/-- `func_sub`: `str(int(x) - int(y))`. -/
def func_sub : FuncImpl := fun ctx args =>
  (match args with
   | [x, y] =>
     match parseInt x, parseInt y with
     | some a, some b => .ok (toString (a - b))
     | _, _ => .error .valueError
   | _ => .error .argError, ctx)

/-- `func_div`: `str(int(x) / int(y))` — Python 2 integer `/` is floor
division (`Int.fdiv`); division by zero raises `ZeroDivisionError`. -/
def func_div : FuncImpl := fun ctx args =>
  (match args with
   | [x, y] =>
     match parseInt x, parseInt y with
     | some a, some b =>
       if b = 0 then .error .zeroDivision else .ok (toString (Int.fdiv a b))
     | _, _ => .error .valueError
   | _ => .error .argError, ctx)

/-- `func_mod`: `str(int(x) % int(y))` — Python `%` takes the sign of the
divisor (`Int.fmod`); modulo zero raises `ZeroDivisionError`. -/
def func_mod : FuncImpl := fun ctx args =>
  (match args with
   | [x, y] =>
     match parseInt x, parseInt y with
     | some a, some b =>
       if b = 0 then .error .zeroDivision else .ok (toString (Int.fmod a b))
     | _, _ => .error .valueError
   | _ => .error .argError, ctx)

/-- `func_mul`: `str(int(x) * int(y))`. -/
def func_mul : FuncImpl := fun ctx args =>
  (match args with
   | [x, y] =>
     match parseInt x, parseInt y with
     | some a, some b => .ok (toString (a * b))
     | _, _ => .error .valueError
   | _ => .error .argError, ctx)

/-- `func_or`: `"1"` when either argument is non-empty. -/
def func_or : FuncImpl := fun ctx args =>
  (match args with
   | [x, y] => if x ≠ "" ∨ y ≠ "" then .ok "1" else .ok ""
   | _ => .error .argError, ctx)

/-- `func_and`: `"1"` when both arguments are non-empty. -/
def func_and : FuncImpl := fun ctx args =>
  (match args with
   | [x, y] => if x ≠ "" ∧ y ≠ "" then .ok "1" else .ok ""
   | _ => .error .argError, ctx)

/-- `func_not`: `"1"` when the argument is empty. -/
def func_not : FuncImpl := fun ctx args =>
  (match args with
   | [x] => if x = "" then .ok "1" else .ok ""
   | _ => .error .argError, ctx)

/-- `func_eq`: raw string equality. -/
def func_eq : FuncImpl := fun ctx args =>
  (match args with
   | [x, y] => if x = y then .ok "1" else .ok ""
   | _ => .error .argError, ctx)

/-- `func_ne`: raw string inequality. -/
def func_ne : FuncImpl := fun ctx args =>
  (match args with
   | [x, y] => if x ≠ y then .ok "1" else .ok ""
   | _ => .error .argError, ctx)

/-- `func_lt`: Python `x < y` on the raw strings (code-point
lexicographic, i.e. `List.lt` on the character lists). -/
def func_lt : FuncImpl := fun ctx args =>
  (match args with
   | [x, y] => if x.data < y.data then .ok "1" else .ok ""
   | _ => .error .argError, ctx)

/-- `func_lte`: Python `x <= y` on the raw strings. -/
def func_lte : FuncImpl := fun ctx args =>
  (match args with
   | [x, y] => if x.data ≤ y.data then .ok "1" else .ok ""
   | _ => .error .argError, ctx)

/-- `func_gt`: Python `x > y` on the raw strings. -/
def func_gt : FuncImpl := fun ctx args =>
  (match args with
   | [x, y] => if y.data < x.data then .ok "1" else .ok ""
   | _ => .error .argError, ctx)

/-- `func_gte`: Python `x >= y` on the raw strings. -/
def func_gte : FuncImpl := fun ctx args =>
  (match args with
   | [x, y] => if y.data ≤ x.data then .ok "1" else .ok ""
   | _ => .error .argError, ctx)

/-- `TagzBuiltins._functions`, in source order.  (`func_trim` exists in
the source file but is absent from this dict.)  With no external
function providers in the repository, `Tagz.functions` is exactly this
table. -/
def builtinFunctions : List (String × FuncImpl) :=
  [("noop", func_noop), ("if", func_if), ("if2", func_if2),
   ("eq", func_eq), ("ne", func_ne), ("lt", func_lt), ("lte", func_lte),
   ("gt", func_gt), ("gte", func_gte),
   ("left", func_left), ("right", func_right), ("lower", func_lower),
   ("upper", func_upper), ("pad", func_pad), ("strip", func_strip),
   ("replace", func_replace), ("rreplace", func_rreplace),
   ("rsearch", func_rsearch), ("num", func_num),
   ("set", func_set), ("get", func_get),
   ("add", func_add), ("sub", func_sub), ("div", func_div),
   ("mod", func_mod), ("mul", func_mul),
   ("or", func_or), ("and", func_and), ("not", func_not)]

/-- `self.functions[name]` lookup. -/
def registryGet : String → Option FuncImpl :=
  fun name => go builtinFunctions name
where go : List (String × FuncImpl) → String → Option FuncImpl
  | [], _ => none
  | (k, f) :: t, key => if k = key then some f else go t key

/-! ## The tokenizer (`_re_text`, `_re_var`, `_re_func`) -/

/-- Python 2 `\w` without `re.UNICODE`. -/
def isWordChar (c : Char) : Bool := c.isAlphanum || c = '_'

/-- The characters excluded from a top-level literal run
(`_re_text = (?:\\.|[^%$])+`). -/
def exclTop : List Char := ['%', '$']

/-- The characters excluded from an argument-span literal run
(`_re_text2 = (?:\\.|[^%$,])+`). -/
def exclArgs : List Char := ['%', '$', ',']

/-- Maximal-munch matcher for the literal-text patterns: units are a
backslash plus any following character, or a single character not in the
excluded set.  Returns the matched run and the remainder. -/
def textUnits (excl : List Char) : List Char → List Char × List Char
  | [] => ([], [])
  | c :: t =>
    if c = '\\' then
      match t with
      | c2 :: t2 =>
        let (m, r) := textUnits excl t2
        ('\\' :: c2 :: m, r)
      | [] => (['\\'], [])
    else if c ∈ excl then ([], c :: t)
    else
      let (m, r) := textUnits excl t
      (c :: m, r)

/-- The text patterns require at least one unit. -/
def matchText (excl : List Char) (l : List Char) :
    Option (List Char × List Char) :=
  match textUnits excl l with
  | ([], _) => none
  | (m, r) => some (m, r)

/-- `_re_var = %\w+%`: returns the variable name and the remainder. -/
def matchVar (l : List Char) : Option (String × List Char) :=
  match l with
  | '%' :: t =>
    let name := t.takeWhile isWordChar
    if name = [] then none
    else
      match t.dropWhile isWordChar with
      | '%' :: rest => some (String.mk name, rest)
      | _ => none
  | _ => none

/-- Scan of a function call's argument span (the iterated
`_re_func_args` group of `_re_func`): consumes escaped parens (`\\(`,
`\\)`) as units, tracks parenthesis depth up to the regex's 10-level
bound, and stops at the closing parenthesis of the call (the first
unescaped `)` at depth 0).  Returns the span and the remainder starting
at that `)`. -/
def spanGo : Nat → List Char → Option (List Char × List Char)
  | _, [] => none
  | dep, '\\' :: '(' :: t2 =>
    (spanGo dep t2).map (fun p => ('\\' :: '(' :: p.1, p.2))
  | dep, '\\' :: ')' :: t2 =>
    (spanGo dep t2).map (fun p => ('\\' :: ')' :: p.1, p.2))
  | dep, '(' :: t =>
    if dep < 10 then (spanGo (dep + 1) t).map (fun p => ('(' :: p.1, p.2))
    else none
  | dep, ')' :: t =>
    if dep = 0 then some ([], ')' :: t)
    else (spanGo (dep - 1) t).map (fun p => (')' :: p.1, p.2))
  | dep, c :: t => (spanGo dep t).map (fun p => (c :: p.1, p.2))

/-- `_re_func = \$\w+\( args \)`: returns the function name, the raw
argument span, and the remainder after the closing parenthesis. -/
def matchFunc (l : List Char) : Option (String × List Char × List Char) :=
  match l with
  | '$' :: t =>
    let name := t.takeWhile isWordChar
    if name = [] then none
    else
      match t.dropWhile isWordChar with
      | '(' :: u =>
        match spanGo 0 u with
        | some (span, _ :: rest) => some (String.mk name, span, rest)
        | _ => none
      | _ => none
  | _ => none

/-! ## The evaluating actions and the scanner loop -/

/-- `s_text`: `string.replace("\\(", "(").replace("\\)", ")")
.replace("\\\\", "\\")` — three sequential leftmost-first passes. -/
def repl2 (a b c : Char) : List Char → List Char
  | [] => []
  | [x] => [x]
  | x :: y :: t =>
    if x = a ∧ y = b then c :: repl2 a b c t
    else x :: repl2 a b c (y :: t)

def sTextL (l : List Char) : List Char :=
  repl2 '\\' '\\' '\\' (repl2 '\\' ')' ')' (repl2 '\\' '(' '(' l))

/-- `s_variable`: look the lower-cased name up in the context; a missing
key (Python `KeyError`) yields `""`. -/
def sVariable (ctx : Ctx) (name : String) : String :=
  match ctxGet ctx (lowerStr name) with
  | some v => v
  | none => ""

/-- `s_args_sep` returns `"\0"`, the in-band separator marker. -/
def nulStr : String := "\x00"

/-- The argument-grouping loop of `s_func` (lines 311–318): repeatedly
take the results before the first `"\0"`, join them into one argument,
drop the separator, and continue; a trailing separator with nothing
after it ends the loop. -/
def splitRun (cur : List String) : List String → List String
  | [] => [joinAll cur.reverse]
  | s :: t =>
    if s = nulStr then
      joinAll cur.reverse :: (if t = [] then [] else splitRun [] t)
    else splitRun (s :: cur) t

/-- Lines 305–318 of `s_func`: pad a leading/trailing separator with an
empty fragment, then split the evaluated fragments into arguments at the
separators. -/
def processResults (results : List String) : List String :=
  let r1 :=
    match results with
    | [] => ([] : List String)
    | x :: _ => if x = nulStr then "" :: results else results
  let r2 :=
    match r1.getLast? with
    | some x => if x = nulStr then r1 ++ [""] else r1
    | none => r1
  match r2 with
  | [] => []
  | _ => splitRun [] r2

/-- Attach one more evaluated fragment in front of a scan result. -/
def consTok (s : String) :
    (Except TagzError (List String)) × Ctx →
    (Except TagzError (List String)) × Ctx
  | (.ok rs, c) => (.ok (s :: rs), c)
  | (.error e, c) => (.error e, c)

/-- The dispatch part of `s_func`, given a scanner for the argument
span: scan the span, group the results into arguments, then look the
name up in the registry (`TagzUnknownFunction` when absent) and call the
implementation. -/
def evalCallWith
    (scan : Ctx → List Char → (Except TagzError (List String)) × Ctx)
    (name : String) (span : List Char) (ctx : Ctx) : FuncOut :=
  match scan ctx span with
  | (.error e, c) => (.error e, c)
  | (.ok results, c) =>
    match registryGet name with
    | none => (.error (.unknownFunction name), c)
    | some f => f c (processResults results)

/-- The `re.Scanner` loop, evaluating as it scans.  `inArgs` selects the
pattern set: inside an argument span the separator rule comes first and
the literal pattern additionally excludes `,`.  An unmatched remainder
is `TagzParseError`.  Structural recursion on fuel; every token consumes
at least one character, so fuel exceeding the input length never runs
out. -/
def scanGen : Nat → Bool → Ctx → List Char →
    (Except TagzError (List String)) × Ctx
  | 0, _, ctx, _ => (.error .outOfFuel, ctx)
  | fuel + 1, inArgs, ctx, l =>
    match l with
    | [] => (.ok [], ctx)
    | c :: t =>
      if inArgs ∧ c = ',' then consTok nulStr (scanGen fuel inArgs ctx t)
      else
        match matchText (if inArgs then exclArgs else exclTop) (c :: t) with
        | some (m, rest) =>
          consTok (String.mk (sTextL m)) (scanGen fuel inArgs ctx rest)
        | none =>
          match matchVar (c :: t) with
          | some (name, rest) =>
            consTok (sVariable ctx name) (scanGen fuel inArgs ctx rest)
          | none =>
            match matchFunc (c :: t) with
            | some (name, span, rest) =>
              match evalCallWith (scanGen fuel true) name span ctx with
              | (.ok v, c1) => consTok v (scanGen fuel inArgs c1 rest)
              | (.error e, c1) => (.error e, c1)
            | none => (.error (.parseError (String.mk (c :: t))), ctx)

/-- `TagzParser.evaluate`: scan the whole script and join the evaluated
fragments.  The supplied fuel `length + 1` always suffices. -/
def evaluate (script : String) (ctx : Ctx) : (Except TagzError String) × Ctx :=
  match scanGen (script.length + 1) false ctx script.data with
  | (.ok parts, c) => (.ok (joinAll parts), c)
  | (.error e, c) => (.error e, c)

/-- The argument list a span produces (the `args` value of `s_func`
before dispatch), for stating claims about argument splitting. -/
def evalArgs (span : String) (ctx : Ctx) :
    (Except TagzError (List String)) × Ctx :=
  match scanGen (span.length + 1) true ctx span.data with
  | (.ok results, c) => (.ok (processResults results), c)
  | (.error e, c) => (.error e, c)

/-! ## Helper lemmas -/

/-- `Int.fdiv` is invariant under negating both operands
(`a / b = (-a) / (-b)` as rationals, and floor is taken of the same
value). -/
theorem fdiv_neg_neg (a b : Int) : Int.fdiv (-a) (-b) = Int.fdiv a b := by
  rcases a with (_ | m) | m <;> rcases b with (_ | n) | n <;>
    first
      | rfl
      | simp [Int.fdiv_zero]

/-- Floor characterization of `Int.fdiv` for a positive divisor. -/
theorem fdiv_bounds_pos (a b : Int) (hb : 0 < b) :
    b * Int.fdiv a b ≤ a ∧ a < b * Int.fdiv a b + b := by
  have h0 := Int.fmod_nonneg' a hb
  have h1 := Int.fmod_lt_of_pos a hb
  rw [Int.fmod_def] at h0 h1
  constructor <;> linarith

/-- Floor characterization of `Int.fdiv` for a negative divisor. -/
theorem fdiv_bounds_neg (a b : Int) (hb : b < 0) :
    b * Int.fdiv a b + b < a ∧ a ≤ b * Int.fdiv a b := by
  have he : Int.fdiv a b = Int.fdiv (-a) (-b) := by rw [fdiv_neg_neg]
  have hb' : 0 < -b := by linarith
  obtain ⟨h0, h1⟩ := fdiv_bounds_pos (-a) (-b) hb'
  rw [← he] at h0 h1
  constructor <;> linarith

/-- A `ctxSet` entry is visible under its own (raw) key. -/
theorem ctxGet_ctxSet_self (ctx : Ctx) (name value : String) :
    ctxGet (ctxSet ctx name value) name = some value := by
  induction ctx with
  | nil => simp [ctxSet, ctxGet]
  | cons kv t ih =>
    obtain ⟨k, v⟩ := kv
    by_cases hk : k = name
    · simp [ctxSet, ctxGet, hk]
    · simp [ctxSet, ctxGet, hk, ih]

/-- Taking `min k (length)` elements is the same as taking `k`. -/
theorem take_min_len {α : Type} (l : List α) (k : Nat) :
    l.take (min k l.length) = l.take k := by
  rcases le_total k l.length with h | h
  · rw [min_eq_left h]
  · rw [min_eq_right h, List.take_length, List.take_of_length_le h]

/-! ## Claims -/

/-- C2 (counterexample): `func_set` stores under the *raw* evaluated
name — `$set(X,5)` creates the entry `"X" -> "5"`, the case-normalized
lookup key `"x"` is absent, and a later `%x%` (or `%X%`, which is also
lowered) yields `""` rather than `"5"`.  This refutes "writes value into
the Context under the key name normalized to canonical (lower) case". -/
theorem tagz_set_case_counterexample :
    evaluate "$set(X,5)%x%" [] = (.ok "", [("X", "5")]) ∧
    ctxGet [("X", "5")] "x" = none ∧
    evaluate "$set(X,5)%X%" [] = (.ok "", [("X", "5")]) :=
  ⟨by decide, by decide, by decide⟩

/-- C2 (amended): `set` writes `value` under the *raw* key `name`
(no case normalization), returns `""`, and the entry is visible to later
lookups under that raw key and to variable references (which lower-case
the reference) whenever the raw key is already lower-case — as in the
spec's own example: `$set(x,5)%x%` evaluates to `"5"` and leaves
`x -> "5"` in the context, also for subsequent evaluations sharing it. -/
theorem tagz_set_raw_key :
    (∀ (ctx : Ctx) (name value : String),
      func_set ctx [name, value] = (.ok "", ctxSet ctx name value)) ∧
    (∀ (ctx : Ctx) (name value : String),
      ctxGet (ctxSet ctx name value) name = some value) ∧
    evaluate "$set(x,5)%x%" [] = (.ok "5", [("x", "5")]) ∧
    evaluate "%x%" [("x", "5")] = (.ok "5", [("x", "5")]) :=
  ⟨fun _ _ _ => rfl, ctxGet_ctxSet_self, by decide, by decide⟩

/-- C3: on integer-parsing arguments with a nonzero divisor, `div`
returns the decimal string of the floor quotient (the unique `q` with
`b*q ≤ a < b*q + b` for `b > 0`, `b*q + b < a ≤ b*q` for `b < 0`) and
`mod` the decimal string of `a - b*q`, which is `≥ 0` for a positive and
`≤ 0` for a negative divisor (sign of the divisor); in particular
`$div(-7,2)` evaluates to `"-4"` and `$mod(-7,2)` to `"1"`. -/
theorem tagz_div_mod_floor :
    (∀ (ctx : Ctx) (x y : String) (a b : Int),
      parseInt x = some a → parseInt y = some b → b ≠ 0 →
      func_div ctx [x, y] = (.ok (toString (Int.fdiv a b)), ctx) ∧
      func_mod ctx [x, y] = (.ok (toString (Int.fmod a b)), ctx) ∧
      Int.fmod a b = a - b * Int.fdiv a b ∧
      (0 < b → b * Int.fdiv a b ≤ a ∧ a < b * Int.fdiv a b + b ∧
        0 ≤ Int.fmod a b ∧ Int.fmod a b < b) ∧
      (b < 0 → b * Int.fdiv a b + b < a ∧ a ≤ b * Int.fdiv a b ∧
        b < Int.fmod a b ∧ Int.fmod a b ≤ 0)) ∧
    evaluate "$div(-7,2)" [] = (.ok "-4", []) ∧
    evaluate "$mod(-7,2)" [] = (.ok "1", []) := by
  refine ⟨?_, by decide, by decide⟩
  intro ctx x y a b hx hy hb
  have hdef := Int.fmod_def a b
  refine ⟨by simp [func_div, hx, hy, hb], by simp [func_mod, hx, hy, hb],
    hdef, ?_, ?_⟩
  · intro hbpos
    obtain ⟨h1, h2⟩ := fdiv_bounds_pos a b hbpos
    exact ⟨h1, h2, by rw [hdef]; linarith, by rw [hdef]; linarith⟩
  · intro hbneg
    obtain ⟨h1, h2⟩ := fdiv_bounds_neg a b hbneg
    exact ⟨h1, h2, by rw [hdef]; linarith, by rw [hdef]; linarith⟩

/-- C3 witness at `x = "-7"`, `y = "2"`. -/
theorem tagz_div_mod_floor_witness :
    func_div [] ["-7", "2"] = (.ok (toString (Int.fdiv (-7) 2)), []) ∧
    func_mod [] ["-7", "2"] = (.ok (toString (Int.fmod (-7) 2)), []) ∧
    Int.fmod (-7) 2 = -7 - 2 * Int.fdiv (-7) 2 ∧
    ((0 : Int) < 2 → 2 * Int.fdiv (-7) 2 ≤ -7 ∧
      (-7 : Int) < 2 * Int.fdiv (-7) 2 + 2 ∧
      0 ≤ Int.fmod (-7) 2 ∧ Int.fmod (-7) 2 < 2) ∧
    ((2 : Int) < 0 → 2 * Int.fdiv (-7) 2 + 2 < -7 ∧
      (-7 : Int) ≤ 2 * Int.fdiv (-7) 2 ∧
      (2 : Int) < Int.fmod (-7) 2 ∧ Int.fmod (-7) 2 ≤ 0) :=
  tagz_div_mod_floor.1 [] "-7" "2" (-7) 2 (by decide) (by decide) (by decide)

/-- C5 (counterexample): with a negative length, `left`/`right` return a
*partial* slice — `$left(abcd,-1)` gives `"abc"` and `$right(abcd,-1)`
gives `"bcd"`, neither empty nor the unchanged text — refuting "an
out-of-range N ... degrades gracefully to an empty or unchanged
string". -/
theorem tagz_left_negative_counterexample :
    func_left [] ["abcd", "-1"] = (.ok "abc", []) ∧
    ("abc" : String) ≠ "" ∧ ("abc" : String) ≠ "abcd" ∧
    func_right [] ["abcd", "-1"] = (.ok "bcd", []) ∧
    evaluate "$left(abcd,-1)" [] = (.ok "abc", []) :=
  ⟨by decide, by decide, by decide, by decide, by decide⟩

/-- C5 (amended): `left` is Python `text[:N]` and `right` is
`text[-N:]`: for `0 ≤ N`, `left` yields the first `min N len`
characters; for `N < 0` it yields all but the last `|N|` (clamped at
empty); for `0 < N`, `right` yields the last `min N len` characters; for
`N = 0` it yields the *whole* text (`text[-0:] = text[0:]`); for `N < 0`
it drops the first `|N|` (clamped); none of these throws when the length
argument parses as an integer. -/
theorem tagz_left_right_slice (ctx : Ctx) (t s : String) (n : Int)
    (hs : parseInt s = some n) :
    (0 ≤ n → func_left ctx [t, s] =
      (.ok (String.mk (t.data.take n.toNat)), ctx)) ∧
    (n < 0 → func_left ctx [t, s] =
      (.ok (String.mk (t.data.take (t.length - (-n).toNat))), ctx)) ∧
    (0 < n → func_right ctx [t, s] =
      (.ok (String.mk (t.data.drop (t.length - min n.toNat t.length))), ctx)) ∧
    (n = 0 → func_right ctx [t, s] = (.ok t, ctx)) ∧
    (n < 0 → func_right ctx [t, s] =
      (.ok (String.mk (t.data.drop (min (-n).toNat t.length))), ctx)) := by
  have hlen : t.length = t.data.length := rfl
  refine ⟨?_, ?_, ?_, ?_, ?_⟩
  · intro h
    have hn : ¬ n < 0 := by omega
    simp only [func_left, hs, pySliceTo, hn, if_false]
    have e : (min n (t.length : Int)).toNat = min n.toNat t.data.length := by
      omega
    rw [e, take_min_len]
  · intro h
    simp only [func_left, hs, pySliceTo, h, if_true]
    have e : (max ((t.length : Int) + n) 0).toNat = t.length - (-n).toNat := by
      omega
    rw [e]
  · intro h
    have hn : -n < 0 := by omega
    simp only [func_right, hs, pySliceFrom, hn, if_true]
    have e : (max ((t.length : Int) + -n) 0).toNat
        = t.length - min n.toNat t.length := by omega
    rw [e]
  · intro h
    subst h
    have hn : ¬ (-(0 : Int)) < 0 := by omega
    simp only [func_right, hs, pySliceFrom, hn, if_false]
    have e : (min (-(0 : Int)) (t.length : Int)).toNat = 0 := by omega
    rw [e]
    simp
  · intro h
    have hn : ¬ -n < 0 := by omega
    simp only [func_right, hs, pySliceFrom, hn, if_false]
    have e : (min (-n) (t.length : Int)).toNat = min (-n).toNat t.length := by
      omega
    rw [e]

/-- C5 witness at `t = "abcd"`, `s = "2"`, `n = 2`. -/
theorem tagz_left_right_slice_witness :
    ((0 : Int) ≤ 2 → func_left [] ["abcd", "2"] =
      (.ok (String.mk ("abcd".data.take (2 : Int).toNat)), [])) ∧
    ((2 : Int) < 0 → func_left [] ["abcd", "2"] =
      (.ok (String.mk ("abcd".data.take ("abcd".length - (-(2 : Int)).toNat))), [])) ∧
    ((0 : Int) < 2 → func_right [] ["abcd", "2"] =
      (.ok (String.mk ("abcd".data.drop
        ("abcd".length - min (2 : Int).toNat "abcd".length))), [])) ∧
    ((2 : Int) = 0 → func_right [] ["abcd", "2"] = (.ok "abcd", [])) ∧
    ((2 : Int) < 0 → func_right [] ["abcd", "2"] =
      (.ok (String.mk ("abcd".data.drop (min (-(2 : Int)).toNat "abcd".length))), [])) :=
  tagz_left_right_slice [] "abcd" "2" 2 (by decide)

/-- C10: `div`/`mod` with divisor string `"0"` raise `ZeroDivisionError`,
which propagates out of `evaluate` unwrapped — the engine performs no
guarding, and the error is none of the engine-defined kinds
(`TagzParseError`, `TagzUnknownFunction`) nor an argument error. -/
theorem tagz_div_zero_unguarded :
    (∀ (ctx : Ctx) (x : String) (a : Int), parseInt x = some a →
      func_div ctx [x, "0"] = (.error .zeroDivision, ctx) ∧
      func_mod ctx [x, "0"] = (.error .zeroDivision, ctx)) ∧
    evaluate "$div(7,0)" [] = (.error .zeroDivision, []) ∧
    evaluate "$mod(7,0)" [] = (.error .zeroDivision, []) ∧
    (∀ s, TagzError.zeroDivision ≠ .parseError s) ∧
    (∀ s, TagzError.zeroDivision ≠ .unknownFunction s) ∧
    TagzError.zeroDivision ≠ .argError ∧
    TagzError.zeroDivision ≠ .valueError := by
  refine ⟨?_, by decide, by decide, by simp, by simp, by simp, by simp⟩
  intro ctx x a hx
  have h0 : parseInt "0" = some 0 := by decide
  constructor
  · simp [func_div, hx, h0]
  · simp [func_mod, hx, h0]

/-- C10 witness at `x = "7"`. -/
theorem tagz_div_zero_unguarded_witness :
    func_div [] ["7", "0"] = (.error .zeroDivision, []) ∧
    func_mod [] ["7", "0"] = (.error .zeroDivision, []) :=
  tagz_div_zero_unguarded.1 [] "7" 7 (by decide)

/-- C9: every registered builtin except `set` returns the context
unchanged (the sole side effect of evaluation is `set`-driven context
mutation), and a failure does not roll back earlier mutations: after
`$set(x,1)$nosuch()` the evaluation fails with `UnknownFunctionError`
while the context keeps `x -> "1"`. -/
theorem tagz_no_rollback_set_only_mutation :
    (∀ (name : String) (impl : FuncImpl),
      (name, impl) ∈ builtinFunctions → name ≠ "set" →
      ∀ (ctx : Ctx) (args : List String), (impl ctx args).2 = ctx) ∧
    evaluate "$set(x,1)$nosuch()" [] =
      (.error (.unknownFunction "nosuch"), [("x", "1")]) := by
  refine ⟨?_, by decide⟩
  intro name impl hmem hname ctx args
  simp only [builtinFunctions, List.mem_cons, List.not_mem_nil, or_false,
    Prod.mk.injEq] at hmem
  rcases hmem with ⟨h1, h2⟩|⟨h1, h2⟩|⟨h1, h2⟩|⟨h1, h2⟩|⟨h1, h2⟩|⟨h1, h2⟩|⟨h1, h2⟩|⟨h1, h2⟩|⟨h1, h2⟩|⟨h1, h2⟩|⟨h1, h2⟩|⟨h1, h2⟩|⟨h1, h2⟩|⟨h1, h2⟩|⟨h1, h2⟩|⟨h1, h2⟩|⟨h1, h2⟩|⟨h1, h2⟩|⟨h1, h2⟩|⟨h1, h2⟩|⟨h1, h2⟩|⟨h1, h2⟩|⟨h1, h2⟩|⟨h1, h2⟩|⟨h1, h2⟩|⟨h1, h2⟩|⟨h1, h2⟩|⟨h1, h2⟩|⟨h1, h2⟩
  all_goals first
    | (exact absurd h1 hname)
    | (subst h2; rfl)

/-- C9 witness: `noop` is registered, differs from `set`, and preserves
the context. -/
theorem tagz_no_rollback_witness :
    (func_noop [("a", "b")] ["x"]).2 = [("a", "b")] :=
  tagz_no_rollback_set_only_mutation.1 "noop" func_noop
    (by simp [builtinFunctions]) (by decide) [("a", "b")] ["x"]

/-- Lexicographic code-point comparison, spelled out as the spec words
it: compare the first characters; on a tie recurse on the tails; a
proper prefix is smaller. -/
def lexLt : List Char → List Char → Bool
  | [], [] => false
  | [], _ :: _ => true
  | _ :: _, [] => false
  | a :: as, b :: bs =>
    if a < b then true else if a = b then lexLt as bs else false

/-- The order used by the comparison builtins coincides with `lexLt`. -/
theorem list_lt_iff_lexLt (xs ys : List Char) :
    xs < ys ↔ lexLt xs ys = true := by
  induction xs generalizing ys with
  | nil =>
    cases ys with
    | nil =>
      simp only [lexLt, Bool.false_eq_true, iff_false]
      intro h
      cases h
    | cons b bs =>
      simp only [lexLt, iff_true]
      exact List.Lex.nil
  | cons a as ih =>
    cases ys with
    | nil =>
      simp only [lexLt, Bool.false_eq_true, iff_false]
      intro h
      cases h
    | cons b bs =>
      simp only [lexLt]
      rcases lt_trichotomy a b with hab | hab | hab
      · simp only [hab, if_true, iff_true]
        exact List.Lex.rel hab
      · subst hab
        rw [if_neg (lt_irrefl a), if_pos rfl, ← ih]
        constructor
        · intro h
          cases h with
          | cons h => exact h
          | rel h => exact absurd h (lt_irrefl a)
        · exact List.Lex.cons
      · have h1 : ¬ a < b := by exact not_lt_of_gt hab
        have h2 : a ≠ b := ne_of_gt hab
        simp only [h1, if_false, h2, Bool.false_eq_true, iff_false]
        intro h
        cases h with
        | cons h' => exact absurd rfl h2
        | rel h' => exact absurd h' h1

/-- C4: the comparison builtins compare the two raw argument strings
lexicographically by code point (`lexLt`), never numerically, returning
`"1"` when the relation holds and `""` otherwise; in particular
`$lt(9,10)` is `""` (the string `"9"` is not less than `"10"`) while
`$lt(09,10)` is `"1"`. -/
theorem tagz_comparisons_lexicographic :
    (∀ (ctx : Ctx) (x y : String),
      func_eq ctx [x, y] = (.ok (if x = y then "1" else ""), ctx) ∧
      func_ne ctx [x, y] = (.ok (if x = y then "" else "1"), ctx) ∧
      func_lt ctx [x, y] =
        (.ok (if lexLt x.data y.data then "1" else ""), ctx) ∧
      func_lte ctx [x, y] =
        (.ok (if lexLt x.data y.data ∨ x = y then "1" else ""), ctx) ∧
      func_gt ctx [x, y] =
        (.ok (if lexLt y.data x.data then "1" else ""), ctx) ∧
      func_gte ctx [x, y] =
        (.ok (if lexLt y.data x.data ∨ x = y then "1" else ""), ctx)) ∧
    evaluate "$lt(9,10)" [] = (.ok "", []) ∧
    evaluate "$lt(09,10)" [] = (.ok "1", []) := by
  refine ⟨?_, by decide, by decide⟩
  intro ctx x y
  have hdata : x = y ↔ x.data = y.data := by
    constructor
    · intro h; rw [h]
    · intro h
      cases x
      cases y
      simp only [] at h
      rw [h]
  have hlt : x.data < y.data ↔ lexLt x.data y.data = true :=
    list_lt_iff_lexLt x.data y.data
  have hgt : y.data < x.data ↔ lexLt y.data x.data = true :=
    list_lt_iff_lexLt y.data x.data
  have hle : x.data ≤ y.data ↔ (lexLt x.data y.data = true ∨ x = y) := by
    rw [le_iff_lt_or_eq, list_lt_iff_lexLt]
    exact or_congr Iff.rfl hdata.symm
  have hge : y.data ≤ x.data ↔ (lexLt y.data x.data = true ∨ x = y) := by
    rw [le_iff_lt_or_eq, list_lt_iff_lexLt]
    refine or_congr Iff.rfl ?_
    rw [← hdata.symm.trans Iff.rfl]
    exact eq_comm
  refine ⟨?_, ?_, ?_, ?_, ?_, ?_⟩
  · by_cases h : x = y <;> simp [func_eq, h]
  · by_cases h : x = y <;> simp [func_ne, h]
  · by_cases h : x.data < y.data
    · simp [func_lt, h, hlt.mp h]
    · simp [func_lt, h, (not_congr hlt).mp h]
  · by_cases h : x.data ≤ y.data
    · simp [func_lte, h, hle.mp h]
    · simp [func_lte, h, (not_congr hle).mp h]
  · by_cases h : y.data < x.data
    · simp [func_gt, h, hgt.mp h]
    · simp [func_gt, h, (not_congr hgt).mp h]
  · by_cases h : y.data ≤ x.data
    · simp [func_gte, h, hge.mp h]
    · simp [func_gte, h, (not_congr hge).mp h]

/-! ## Argument splitting (for C8 / C1) -/

/-- Spec-side description of a scanned argument span: the evaluated
fragment groups of the arguments, flattened with one separator marker
between consecutive groups. -/
def interSep : List (List String) → List String
  | [] => []
  | [g] => g
  | g :: gs => g ++ nulStr :: interSep gs

theorem interSep_cons (g : List String) (l : List (List String))
    (h : l ≠ []) : interSep (g :: l) = g ++ nulStr :: interSep l := by
  cases l with
  | nil => exact absurd rfl h
  | cons h t => rfl

theorem interSep_append_last (G : List (List String)) (g : List String)
    (h : G ≠ []) : interSep (G ++ [g]) = interSep G ++ nulStr :: g := by
  induction G with
  | nil => exact absurd rfl h
  | cons x G' ih =>
    cases G' with
    | nil => rfl
    | cons y t =>
      rw [List.cons_append, interSep_cons x ((y :: t) ++ [g]) (by simp),
        interSep_cons x (y :: t) (by simp), ih (by simp)]
      simp

/-- `splitRun` consumes a separator-free group followed by a separator:
the group joins into one argument. -/
theorem splitRun_append_sep (g : List String) (rest : List String)
    (cur : List String) (hfree : ∀ s ∈ g, s ≠ nulStr) :
    splitRun cur (g ++ nulStr :: rest) =
      joinAll (cur.reverse ++ g) ::
        (if rest = [] then [] else splitRun [] rest) := by
  induction g generalizing cur with
  | nil => simp [splitRun]
  | cons s g' ih =>
    have hs : s ≠ nulStr := hfree s (by simp)
    rw [List.cons_append]
    show splitRun cur (s :: (g' ++ nulStr :: rest)) = _
    rw [splitRun, if_neg hs, ih _ (fun x hx => hfree x (List.mem_cons_of_mem s hx))]
    simp

/-- `splitRun` on a separator-free list joins it into one argument. -/
theorem splitRun_no_sep (g : List String) (cur : List String)
    (hfree : ∀ s ∈ g, s ≠ nulStr) :
    splitRun cur g = [joinAll (cur.reverse ++ g)] := by
  induction g generalizing cur with
  | nil => simp [splitRun]
  | cons s g' ih =>
    have hs : s ≠ nulStr := hfree s (by simp)
    rw [splitRun, if_neg hs, ih _ (fun x hx => hfree x (List.mem_cons_of_mem s hx))]
    simp

/-- `splitRun` turns a flattened group list whose last group is
non-empty back into the joined groups. -/
theorem splitRun_interSep (gs : List (List String)) (gl : List String)
    (hfree : ∀ g ∈ gs ++ [gl], ∀ s ∈ g, s ≠ nulStr) (hgl : gl ≠ []) :
    splitRun [] (interSep (gs ++ [gl])) = (gs ++ [gl]).map joinAll := by
  induction gs with
  | nil =>
    simp only [List.nil_append, interSep, List.map]
    rw [splitRun_no_sep gl [] (hfree gl (by simp))]
    simp
  | cons g gs' ih =>
    rw [List.cons_append, interSep_cons g (gs' ++ [gl]) (by simp),
      splitRun_append_sep g _ [] (hfree g (by simp))]
    have hne : interSep (gs' ++ [gl]) ≠ [] := by
      cases gs' with
      | nil => simpa using hgl
      | cons y t =>
        rw [List.cons_append, interSep_cons y (t ++ [gl]) (by simp)]
        simp
    rw [if_neg hne, ih (fun x hx => hfree x (by simp at hx ⊢; tauto))]
    simp

/-- The last element of a flattened group list with a non-empty last
group is the last element of that group (not a separator). -/
theorem getLast_interSep_last (G : List (List String)) (s : String)
    (t : List String) :
    (interSep (G ++ [s :: t])).getLast? = (s :: t).getLast? := by
  cases hG : G with
  | nil => rfl
  | cons a b =>
  rw [← hG]
  rw [interSep_append_last G (s :: t) (by simp [hG])]
  have : interSep G ++ nulStr :: s :: t = (interSep G ++ [nulStr]) ++ s :: t := by
    simp
  rw [this, List.getLast?_append]
  cases hL : (s :: t).getLast? with
  | none => simp [List.getLast?] at hL
  | some x => simp

/-- Prepending the front pad before a leading separator does not change
the split. -/
theorem splitRun_front_pad (t : List String) :
    splitRun [] ("" :: nulStr :: t) = splitRun [] (nulStr :: t) := by
  have h : ("" : String) ≠ nulStr := by decide
  rw [splitRun, if_neg h, splitRun, if_pos rfl, splitRun, if_pos rfl]
  rfl

/-- `processResults` on a non-empty result list: pad a trailing
separator with an empty fragment and split; the front pad is
transparent. -/
theorem processResults_eq (s0 : String) (t0 : List String) :
    processResults (s0 :: t0) =
      (match (s0 :: t0).getLast? with
       | some x =>
         if x = nulStr then splitRun [] ((s0 :: t0) ++ [""])
         else splitRun [] (s0 :: t0)
       | none => splitRun [] (s0 :: t0)) := by
  by_cases hs : s0 = nulStr
  · subst hs
    cases hL : (nulStr :: t0).getLast? with
    | none => simp [List.getLast?_eq_none_iff] at hL
    | some x =>
      by_cases hx : x = nulStr
      · subst hx
        simp [processResults, List.getLast?_cons_cons, hL, splitRun_front_pad]
      · simp [processResults, List.getLast?_cons_cons, hL, hx, splitRun_front_pad]
  · cases hL : (s0 :: t0).getLast? with
    | none => simp [List.getLast?_eq_none_iff] at hL
    | some x =>
      by_cases hx : x = nulStr
      · subst hx
        simp [processResults, hL, hs]
      · simp [processResults, hL, hs, hx]

/-- A trailing separator is padded with an empty fragment before the
split. -/
theorem processResults_trailing_sep (s0 : String) (t0 : List String)
    (hL : (s0 :: t0).getLast? = some nulStr) :
    processResults (s0 :: t0) = splitRun [] ((s0 :: t0) ++ [""]) := by
  rw [processResults_eq, hL]
  simp

/-- Without a trailing separator, no pad is inserted. -/
theorem processResults_no_trailing (s0 : String) (t0 : List String)
    (x : String) (hL : (s0 :: t0).getLast? = some x) (hx : x ≠ nulStr) :
    processResults (s0 :: t0) = splitRun [] (s0 :: t0) := by
  rw [processResults_eq, hL]
  simp [hx]

/-- The grouping loop of `s_func` recovers the argument groups from a
flattened result list: each maximal run between separators joins into
one argument, empty runs (leading, trailing, or adjacent separators)
yield empty-string arguments. -/
theorem processResults_interSep (groups : List (List String))
    (hfree : ∀ g ∈ groups, ∀ s ∈ g, s ≠ nulStr) (hne : groups ≠ [[]]) :
    processResults (interSep groups) = groups.map joinAll := by
  rcases List.eq_nil_or_concat groups with rfl | ⟨gs, gl, rfl⟩
  · rfl
  · simp only [List.concat_eq_append] at hfree hne ⊢
    cases gl with
    | nil =>
      cases gs with
      | nil => exact absurd rfl hne
      | cons g1 gs' =>
        have hflat : interSep ((g1 :: gs') ++ [[]])
            = interSep (g1 :: gs') ++ [nulStr] := by
          rw [interSep_append_last (g1 :: gs') [] (by simp)]
        rw [hflat]
        have hL : (interSep (g1 :: gs') ++ [nulStr]).getLast? = some nulStr :=
          List.getLast?_concat _
        obtain ⟨s0, t0, hcons⟩ :
            ∃ s0 t0, interSep (g1 :: gs') ++ [nulStr] = s0 :: t0 := by
          apply List.exists_cons_of_ne_nil
          simp
        rw [hcons] at hL ⊢
        rw [processResults_trailing_sep s0 t0 hL, ← hcons]
        have e : (interSep (g1 :: gs') ++ [nulStr]) ++ [""]
            = interSep ((g1 :: gs') ++ [[""]]) := by
          rw [interSep_append_last (g1 :: gs') [""] (by simp)]
          simp
        rw [e, splitRun_interSep (g1 :: gs') [""] ?_ (by simp)]
        · simp [joinAll]
        · intro g hg s hsmem
          simp only [List.mem_append, List.mem_singleton] at hg
          rcases hg with hg | hg
          · exact hfree g (List.mem_append_left [[]] hg) s hsmem
          · subst hg
            simp only [List.mem_singleton] at hsmem
            subst hsmem
            decide
    | cons s2 t2 =>
      have hlast : (interSep (gs ++ [s2 :: t2])).getLast?
          = (s2 :: t2).getLast? := getLast_interSep_last gs s2 t2
      have hne2 : interSep (gs ++ [s2 :: t2]) ≠ [] := by
        cases gs with
        | nil => simp [interSep]
        | cons a b =>
          rw [interSep_append_last (a :: b) (s2 :: t2) (by simp)]
          simp
      obtain ⟨s0, t0, hcons⟩ := List.exists_cons_of_ne_nil hne2
      cases hL : (s2 :: t2).getLast? with
      | none => simp [List.getLast?_eq_none_iff] at hL
      | some x =>
        have hx : x ≠ nulStr := by
          have hxm : x ∈ s2 :: t2 := List.mem_of_getLast?_eq_some hL
          exact hfree (s2 :: t2) (by simp) x hxm
        have hL2 : (s0 :: t0).getLast? = some x := by
          rw [← hcons, hlast, hL]
        rw [hcons, processResults_no_trailing s0 t0 x hL2 hx, ← hcons]
        exact splitRun_interSep gs (s2 :: t2) hfree (by simp)

/-- C8: a zero-argument list is legal (`$func()` scans to no results and
dispatches with an empty argument list), and splitting a scanned span at
separators turns every maximal (possibly empty) run of evaluated
fragments between separators into one argument — so leading, trailing,
or consecutive separators each yield an empty-string argument. -/
theorem tagz_arg_splitting :
    (∀ groups : List (List String),
      (∀ g ∈ groups, ∀ s ∈ g, s ≠ nulStr) → groups ≠ [[]] →
      processResults (interSep groups) = groups.map joinAll) ∧
    processResults [] = [] ∧
    evalArgs "" [] = (.ok [], []) ∧
    evaluate "$noop()" [] = (.ok "", []) ∧
    evalArgs "," [] = (.ok ["", ""], []) ∧
    evalArgs "a,,b" [] = (.ok ["a", "", "b"], []) ∧
    evalArgs ",a," [] = (.ok ["", "a", ""], []) ∧
    evaluate "$noop(,a,)" [] = (.ok "a", []) :=
  ⟨processResults_interSep, rfl, by decide, by decide, by decide,
    by decide, by decide, by decide⟩

/-- C8 witness: three groups with an empty middle group split into
`["a", "", "b"]`. -/
theorem tagz_arg_splitting_witness :
    processResults (interSep [["a"], [], ["b"]]) =
      [["a"], [], ["b"]].map joinAll :=
  tagz_arg_splitting.1 [["a"], [], ["b"]] (by decide) (by decide)

/-! ## Tokenizer lemmas (for C6 / C1) -/

/-- A script-visible name: non-empty and all word characters
(`\w+`). -/
def wordName (s : String) : Prop :=
  s.data ≠ [] ∧ ∀ c ∈ s.data, isWordChar c

/-- `takeWhile`/`dropWhile` split a word run at the first non-word
character. -/
theorem takeWhile_word_prefix (xs : List Char) (c : Char) (r : List Char)
    (hall : ∀ a ∈ xs, isWordChar a) (hc : isWordChar c = false) :
    (xs ++ c :: r).takeWhile isWordChar = xs ∧
    (xs ++ c :: r).dropWhile isWordChar = c :: r := by
  constructor
  · rw [List.takeWhile_append_of_pos hall, List.takeWhile_cons, hc]
    simp
  · rw [List.dropWhile_append_of_pos hall, List.dropWhile_cons, hc]
    simp

/-- The literal-text pattern cannot start at an excluded character. -/
theorem matchText_start_excl (excl : List Char) (c : Char) (t : List Char)
    (hc : c ∈ excl) (hcb : c ≠ '\\') : matchText excl (c :: t) = none := by
  unfold matchText textUnits
  simp [hcb, hc]

/-- The variable pattern matches a full `%name%` reference. -/
theorem matchVar_word (v : String) (rest : List Char) (hne : v.data ≠ [])
    (hall : ∀ c ∈ v.data, isWordChar c) :
    matchVar ('%' :: (v.data ++ '%' :: rest)) = some (v, rest) := by
  obtain ⟨ht, hd⟩ := takeWhile_word_prefix v.data '%' rest hall (by decide)
  simp only [matchVar, ht, hd, if_neg hne]

/-- The function pattern reads the name up to `(` and hands the rest to
the span scanner. -/
theorem matchFunc_word (f : String) (u : List Char)
    (hne : f.data ≠ []) (hall : ∀ c ∈ f.data, isWordChar c) :
    matchFunc ('$' :: (f.data ++ '(' :: u)) =
      (match spanGo 0 u with
       | some (span, _ :: rest) => some (f, span, rest)
       | _ => none) := by
  obtain ⟨ht, hd⟩ := takeWhile_word_prefix f.data '(' u hall (by decide)
  simp only [matchFunc, ht, hd, if_neg hne]

/-- Scanner step: end of input. -/
theorem scanGen_nil (fuel : Nat) (b : Bool) (ctx : Ctx) :
    scanGen (fuel + 1) b ctx [] = (.ok [], ctx) := rfl

/-- Scanner step: argument separator (argument mode only). -/
theorem scanGen_sep_step (fuel : Nat) (ctx : Ctx) (t : List Char) :
    scanGen (fuel + 1) true ctx (',' :: t) =
      consTok nulStr (scanGen fuel true ctx t) := by
  simp [scanGen]

/-- Scanner step: literal-text token. -/
theorem scanGen_text_step (fuel : Nat) (b : Bool) (ctx : Ctx) (c : Char)
    (t m rest : List Char) (hsep : ¬(b ∧ c = ','))
    (hm : matchText (if b then exclArgs else exclTop) (c :: t) =
      some (m, rest)) :
    scanGen (fuel + 1) b ctx (c :: t) =
      consTok (String.mk (sTextL m)) (scanGen fuel b ctx rest) := by
  simp only [scanGen, if_neg hsep, hm]

/-- Scanner step: variable token. -/
theorem scanGen_var_step (fuel : Nat) (b : Bool) (ctx : Ctx) (c : Char)
    (t rest : List Char) (name : String) (hsep : ¬(b ∧ c = ','))
    (hmt : matchText (if b then exclArgs else exclTop) (c :: t) = none)
    (hmv : matchVar (c :: t) = some (name, rest)) :
    scanGen (fuel + 1) b ctx (c :: t) =
      consTok (sVariable ctx name) (scanGen fuel b ctx rest) := by
  simp only [scanGen, if_neg hsep, hmt, hmv]

/-- Scanner step: function-call token. -/
theorem scanGen_func_step (fuel : Nat) (b : Bool) (ctx : Ctx) (c : Char)
    (t span rest : List Char) (name : String) (hsep : ¬(b ∧ c = ','))
    (hmt : matchText (if b then exclArgs else exclTop) (c :: t) = none)
    (hmv : matchVar (c :: t) = none)
    (hmf : matchFunc (c :: t) = some (name, span, rest)) :
    scanGen (fuel + 1) b ctx (c :: t) =
      (match evalCallWith (scanGen fuel true) name span ctx with
       | (.ok v, c1) => consTok v (scanGen fuel b c1 rest)
       | (.error e, c1) => (.error e, c1)) := by
  simp only [scanGen, if_neg hsep, hmt, hmv, hmf]

/-- A non-excluded plain character extends a literal run. -/
theorem textUnits_cons_plain (excl : List Char) (c : Char) (t : List Char)
    (hcb : c ≠ '\\') (hc : c ∉ excl) :
    textUnits excl (c :: t) =
      (c :: (textUnits excl t).1, (textUnits excl t).2) := by
  rw [textUnits.eq_def]
  simp only [if_neg hcb, if_neg hc]

/-- An excluded character stops a literal run. -/
theorem textUnits_cons_excl (excl : List Char) (c : Char) (t : List Char)
    (hcb : c ≠ '\\') (hc : c ∈ excl) :
    textUnits excl (c :: t) = ([], c :: t) := by
  rw [textUnits.eq_def]
  simp only [if_neg hcb, if_pos hc]

/-- C6: a variable reference whose lower-cased name is absent from the
context evaluates to `""` (never an error), while a call to a name
absent from the registry aborts the entire evaluation with
`TagzUnknownFunction` carrying that name — the error result carries no
partial output (the literal before and after the call are discarded). -/
theorem tagz_unknown_variable_vs_function :
    (∀ (ctx : Ctx) (v : String), wordName v →
      ctxGet ctx (lowerStr v) = none →
      evaluate ("%" ++ v ++ "%") ctx = (.ok "", ctx)) ∧
    (∀ (ctx : Ctx) (f : String), wordName f → registryGet f = none →
      evaluate ("X$" ++ f ++ "()Y") ctx =
        (.error (.unknownFunction f), ctx)) ∧
    evaluate "%missing%" [] = (.ok "", []) ∧
    evaluate "X$nosuch()Y" [] = (.error (.unknownFunction "nosuch"), []) := by
  refine ⟨?_, ?_, by decide, by decide⟩
  · intro ctx v hv hget
    obtain ⟨hne, hall⟩ := hv
    have hdata : ("%" ++ v ++ "%").data = '%' :: (v.data ++ '%' :: []) := by
      simp [String.data_append]
    have hlen : ("%" ++ v ++ "%").length = v.data.length + 2 := by
      show ("%" ++ v ++ "%").data.length = v.data.length + 2
      rw [hdata]
      simp
    have hmt : matchText exclTop ('%' :: (v.data ++ '%' :: [])) = none :=
      matchText_start_excl exclTop '%' _ (by decide) (by decide)
    have hmv : matchVar ('%' :: (v.data ++ '%' :: [])) = some (v, []) :=
      matchVar_word v [] hne hall
    have hsv : sVariable ctx v = "" := by simp [sVariable, hget]
    unfold evaluate
    rw [hlen, hdata,
      scanGen_var_step (v.data.length + 2) false ctx '%' (v.data ++ '%' :: [])
        [] v (by simp) hmt hmv, hsv]
    have e2 : v.data.length + 2 = (v.data.length + 1) + 1 := rfl
    rw [e2, scanGen_nil]
    simp [consTok, joinAll]
  · intro ctx f hf hreg
    obtain ⟨hne, hall⟩ := hf
    have hdata : ("X$" ++ f ++ "()Y").data
        = 'X' :: '$' :: (f.data ++ '(' :: ')' :: 'Y' :: []) := by
      simp [String.data_append]
    have hlen : ("X$" ++ f ++ "()Y").length = f.data.length + 5 := by
      show ("X$" ++ f ++ "()Y").data.length = f.data.length + 5
      rw [hdata]
      simp
    have h1 : matchText exclTop
        ('X' :: '$' :: (f.data ++ '(' :: ')' :: 'Y' :: []))
        = some (['X'], '$' :: (f.data ++ '(' :: ')' :: 'Y' :: [])) := by
      unfold matchText
      rw [textUnits_cons_plain exclTop 'X' _ (by decide) (by decide),
        textUnits_cons_excl exclTop '$' _ (by decide) (by decide)]
    have h2 : matchText exclTop ('$' :: (f.data ++ '(' :: ')' :: 'Y' :: []))
        = none := matchText_start_excl exclTop '$' _ (by decide) (by decide)
    have h3 : matchVar ('$' :: (f.data ++ '(' :: ')' :: 'Y' :: [])) = none := rfl
    have h4 : matchFunc ('$' :: (f.data ++ '(' :: ')' :: 'Y' :: []))
        = some (f, [], 'Y' :: []) := by
      rw [matchFunc_word f (')' :: 'Y' :: []) hne hall]
      rfl
    unfold evaluate
    rw [hlen, hdata,
      scanGen_text_step (f.data.length + 5) false ctx 'X'
        ('$' :: (f.data ++ '(' :: ')' :: 'Y' :: [])) ['X']
        ('$' :: (f.data ++ '(' :: ')' :: 'Y' :: [])) (by simp) h1]
    have e1 : f.data.length + 5 = (f.data.length + 4) + 1 := rfl
    rw [e1,
      scanGen_func_step (f.data.length + 4) false ctx '$'
        (f.data ++ '(' :: ')' :: 'Y' :: []) [] ('Y' :: []) f (by simp) h2 h3 h4]
    unfold evalCallWith
    have e2 : f.data.length + 4 = (f.data.length + 3) + 1 := rfl
    rw [e2, scanGen_nil, hreg]
    simp [consTok]

/-- C6 witness at `v = "missing"`, `f = "nosuch"`, empty context. -/
theorem tagz_unknown_variable_vs_function_witness :
    evaluate ("%" ++ "missing" ++ "%") [] = (.ok "", []) ∧
    evaluate ("X$" ++ "nosuch" ++ "()Y") [] =
      (.error (.unknownFunction "nosuch"), []) :=
  ⟨tagz_unknown_variable_vs_function.1 [] "missing"
      ⟨by decide, by decide⟩ (by decide),
    tagz_unknown_variable_vs_function.2.1 [] "nosuch"
      ⟨by decide, by decide⟩ rfl⟩

/-! ## Argument-span lemmas (for C1) -/

theorem spanGo_esc_open (dep : Nat) (t : List Char) :
    spanGo dep ('\\' :: '(' :: t) =
      (spanGo dep t).map (fun p => ('\\' :: '(' :: p.1, p.2)) := rfl

theorem spanGo_esc_close (dep : Nat) (t : List Char) :
    spanGo dep ('\\' :: ')' :: t) =
      (spanGo dep t).map (fun p => ('\\' :: ')' :: p.1, p.2)) := rfl

theorem spanGo_close_zero (t : List Char) :
    spanGo 0 (')' :: t) = some ([], ')' :: t) := rfl

theorem spanGo_open (dep : Nat) (t : List Char) (h : dep < 10) :
    spanGo dep ('(' :: t) =
      (spanGo (dep + 1) t).map (fun p => ('(' :: p.1, p.2)) := by
  rw [spanGo.eq_def]
  simp [h]

theorem spanGo_close_succ (dep : Nat) (t : List Char) (h : dep ≠ 0) :
    spanGo dep (')' :: t) =
      (spanGo (dep - 1) t).map (fun p => (')' :: p.1, p.2)) := by
  rw [spanGo.eq_def]
  simp [h]

theorem spanGo_char (dep : Nat) (c : Char) (t : List Char)
    (hc1 : c ≠ '\\') (hc2 : c ≠ '(') (hc3 : c ≠ ')') :
    spanGo dep (c :: t) =
      (spanGo dep t).map (fun p => (c :: p.1, p.2)) := by
  rw [spanGo.eq_def]
  simp [hc1, hc2, hc3]

theorem spanGo_bslash_plain (dep : Nat) (c2 : Char) (t : List Char)
    (hc2 : c2 ≠ '(') (hc3 : c2 ≠ ')') :
    spanGo dep ('\\' :: c2 :: t) =
      (spanGo dep (c2 :: t)).map (fun p => ('\\' :: p.1, p.2)) := by
  rw [spanGo.eq_def]
  simp [hc2, hc3]

/-- Constraint on what may follow a lone backslash inside an argument
span: not a parenthesis (which the scanner would read as an escape) and
not the end of the span. -/
def headSafe : List Char → Prop
  | [] => False
  | '(' :: _ => False
  | ')' :: _ => False
  | _ => True

/-- Well-formed argument-span content at nesting depth `dep`, mirroring
the bounded balanced-parenthesis language of `_re_func_args` as read by
`spanGo`: escaped parentheses, plain characters (a lone backslash only
when not followed by a parenthesis or the end of the span), and
balanced groups while fewer than 10 levels deep. -/
inductive SpanOk : Nat → List Char → Prop where
  | nil (dep : Nat) : SpanOk dep []
  | esc (dep : Nat) (c : Char) (t : List Char) :
      c = '(' ∨ c = ')' → SpanOk dep t → SpanOk dep ('\\' :: c :: t)
  | chr (dep : Nat) (c : Char) (t : List Char) :
      c ≠ '(' → c ≠ ')' → (c = '\\' → headSafe t) →
      SpanOk dep t → SpanOk dep (c :: t)
  | grp (dep : Nat) (w t : List Char) :
      dep < 10 → SpanOk (dep + 1) w → SpanOk dep t →
      SpanOk dep ('(' :: (w ++ ')' :: t))

/-- A well-formed span is consumed transparently by the span scanner:
scanning `w ++ rest` consumes all of `w` (parentheses balance out,
internal characters — commas included — are swallowed) and continues in
`rest` at the same depth. -/
theorem spanGo_append (dep : Nat) (w : List Char) (hw : SpanOk dep w) :
    ∀ rest : List Char, spanGo dep (w ++ rest) =
      (spanGo dep rest).map (fun p => (w ++ p.1, p.2)) := by
  induction hw with
  | nil dep =>
    intro rest
    cases h : spanGo dep rest <;> simp [h]
  | esc dep c t hc ht ih =>
    intro rest
    rcases hc with rfl | rfl
    · rw [List.cons_append, List.cons_append, spanGo_esc_open, ih rest]
      cases h : spanGo dep rest <;> simp [h]
    · rw [List.cons_append, List.cons_append, spanGo_esc_close, ih rest]
      cases h : spanGo dep rest <;> simp [h]
  | chr dep c t hc1 hc2 hbs ht ih =>
    intro rest
    by_cases hb : c = '\\'
    · subst hb
      have hsafe := hbs rfl
      cases t with
      | nil => exact absurd hsafe (by simp [headSafe])
      | cons c2 t2 =>
        have h2 : c2 ≠ '(' := by
          intro h
          subst h
          simp [headSafe] at hsafe
        have h3 : c2 ≠ ')' := by
          intro h
          subst h
          simp [headSafe] at hsafe
        rw [List.cons_append, List.cons_append,
          spanGo_bslash_plain dep c2 (t2 ++ rest) h2 h3,
          ← List.cons_append, ih rest]
        cases h : spanGo dep rest <;> simp [h]
    · rw [List.cons_append, spanGo_char dep c (t ++ rest) hb hc1 hc2, ih rest]
      cases h : spanGo dep rest <;> simp [h]
  | grp dep w t hdep hw2 ht ihw iht =>
    intro rest
    rw [List.cons_append, spanGo_open dep _ hdep]
    have e : (w ++ ')' :: t) ++ rest = w ++ (')' :: (t ++ rest)) := by simp
    rw [e, ihw (')' :: (t ++ rest)),
      spanGo_close_succ (dep + 1) (t ++ rest) (by omega)]
    have e2 : dep + 1 - 1 = dep := by omega
    rw [e2, iht rest]
    cases h : spanGo dep rest <;> simp [h]

/-- C1: inside an argument span, a nested call consumes its own
parentheses and every comma inside them as one token: scanning
`$fn(w),rest` evaluates the whole nested call `$fn(w)` to a single
fragment and only the comma *after* its closing parenthesis acts as a
separator.  In particular `$noop($left(abcd,2),Z)` evaluates to `"abZ"`
with outer arguments `["ab", "Z"]`. -/
theorem tagz_nested_call_comma_scoping :
    (∀ (fuel : Nat) (ctx : Ctx) (fn : String) (w rest : List Char),
      wordName fn → SpanOk 0 w →
      scanGen (fuel + 2) true ctx
          ('$' :: (fn.data ++ '(' :: (w ++ ')' :: ',' :: rest))) =
        (match evalCallWith (scanGen (fuel + 1) true) fn w ctx with
         | (.ok v, c1) =>
           consTok v (consTok nulStr (scanGen fuel true c1 rest))
         | (.error e, c1) => (.error e, c1))) ∧
    evaluate "$noop($left(abcd,2),Z)" [] = (.ok "abZ", []) ∧
    evalArgs "$left(abcd,2),Z" [] = (.ok ["ab", "Z"], []) := by
  refine ⟨?_, by decide, by decide⟩
  intro fuel ctx fn w rest hfn hw
  obtain ⟨hne, hall⟩ := hfn
  have hmt : matchText exclArgs
      ('$' :: (fn.data ++ '(' :: (w ++ ')' :: ',' :: rest))) = none :=
    matchText_start_excl exclArgs '$' _ (by decide) (by decide)
  have hmv : matchVar
      ('$' :: (fn.data ++ '(' :: (w ++ ')' :: ',' :: rest))) = none := rfl
  have hmf : matchFunc
      ('$' :: (fn.data ++ '(' :: (w ++ ')' :: ',' :: rest)))
      = some (fn, w, ',' :: rest) := by
    rw [matchFunc_word fn (w ++ ')' :: ',' :: rest) hne hall,
      spanGo_append 0 w hw (')' :: ',' :: rest), spanGo_close_zero]
    simp
  rw [scanGen_func_step (fuel + 1) true ctx '$'
    (fn.data ++ '(' :: (w ++ ')' :: ',' :: rest)) w (',' :: rest) fn
    (by simp) hmt hmv hmf]
  rcases hE : evalCallWith (scanGen (fuel + 1) true) fn w ctx with ⟨res, c1⟩
  cases res with
  | ok v =>
    show consTok v (scanGen (fuel + 1) true c1 (',' :: rest))
        = consTok v (consTok nulStr (scanGen fuel true c1 rest))
    rw [scanGen_sep_step fuel c1 rest]
  | error e => rfl

/-- C1 witness: `fn = "noop"`, `w = "a"`, `rest = "b"`. -/
theorem tagz_nested_call_comma_scoping_witness :
    scanGen 2 true []
        ('$' :: ("noop".data ++ '(' :: (['a'] ++ ')' :: ',' :: ['b']))) =
      (match evalCallWith (scanGen 1 true) "noop" ['a'] [] with
       | (.ok v, c1) => consTok v (consTok nulStr (scanGen 0 true c1 ['b']))
       | (.error e, c1) => (.error e, c1)) :=
  tagz_nested_call_comma_scoping.1 0 [] "noop" ['a'] ['b']
    ⟨by decide, by decide⟩
    (SpanOk.chr 0 'a' [] (by decide) (by decide)
      (fun h => absurd h (by decide)) (SpanOk.nil 0))

/-! ## The unescaping step (C7) -/

/-- The spec's description of unescaping as a single left-to-right pass:
exactly the two-character sequences `\(`, `\)`, `\\` are rewritten to
`(`, `)`, `\`; any other `\x` (and every other character) passes through
unchanged. -/
def specUnescape : List Char → List Char
  | '\\' :: '(' :: t => '(' :: specUnescape t
  | '\\' :: ')' :: t => ')' :: specUnescape t
  | '\\' :: '\\' :: t => '\\' :: specUnescape t
  | c :: t => c :: specUnescape t
  | [] => []

theorem repl2_hit (a b c : Char) (t : List Char) :
    repl2 a b c (a :: b :: t) = c :: repl2 a b c t := by
  simp [repl2]

/-- A `repl2` step that cannot match (either because of the head or of
the next character) emits the head unchanged. -/
theorem repl2_skip (a b c x : Char) (l : List Char)
    (h : ∀ y t, l = y :: t → ¬(x = a ∧ y = b)) :
    repl2 a b c (x :: l) = x :: repl2 a b c l := by
  cases l with
  | nil => rfl
  | cons y t =>
    rw [repl2.eq_def]
    simp only [if_neg (h y t rfl)]

theorem specUnescape_esc (c : Char) (t : List Char)
    (hc : c = '(' ∨ c = ')' ∨ c = '\\') :
    specUnescape ('\\' :: c :: t) = c :: specUnescape t := by
  rcases hc with rfl | rfl | rfl <;> rfl

theorem specUnescape_cons_other (c : Char) (t : List Char)
    (hc : c ≠ '\\') :
    specUnescape (c :: t) = c :: specUnescape t := by
  rw [specUnescape.eq_def]
  cases t with
  | nil => simp [hc]
  | cons y u => simp [hc]

theorem specUnescape_bslash_other (c : Char) (t : List Char)
    (h1 : c ≠ '(') (h2 : c ≠ ')') (h3 : c ≠ '\\') :
    specUnescape ('\\' :: c :: t) = '\\' :: specUnescape (c :: t) := by
  rw [specUnescape.eq_def]
  simp [h1, h2, h3, specUnescape_cons_other c t h3]

theorem repl2_skip_head (a b c x : Char) (l : List Char) (hx : x ≠ a) :
    repl2 a b c (x :: l) = x :: repl2 a b c l :=
  repl2_skip a b c x l (fun _ _ _ h => hx h.1)

/-- A backslash run passes through a `repl2` pass whose target second
character is neither a backslash nor the head of what follows. -/
theorem repl2_bs_pass (b c : Char) (hb : b ≠ '\\') (k : Nat) (l : List Char)
    (hl : ∀ x t, l = x :: t → x ≠ b) :
    repl2 '\\' b c (List.replicate k '\\' ++ l) =
      List.replicate k '\\' ++ repl2 '\\' b c l := by
  induction k with
  | zero => simp
  | succ k ih =>
    rw [List.replicate_succ, List.cons_append,
      repl2_skip '\\' b c '\\' (List.replicate k '\\' ++ l) ?_, ih]
    · simp
    · intro y t hyt hcond
      obtain ⟨-, hyb⟩ := hcond
      subst hyb
      cases k with
      | zero =>
        simp only [List.replicate, List.nil_append] at hyt
        exact hl y t hyt rfl
      | succ k2 =>
        rw [List.replicate_succ, List.cons_append] at hyt
        injection hyt with h1 h2
        exact hb h1.symm

/-- A backslash run followed by the target character: the last backslash
of the run escapes it. -/
theorem repl2_bs_hit (b : Char) (hb : b ≠ '\\') (k : Nat) (t : List Char) :
    repl2 '\\' b b (List.replicate (k + 1) '\\' ++ b :: t) =
      List.replicate k '\\' ++ b :: repl2 '\\' b b t := by
  induction k with
  | zero => simp [repl2_hit]
  | succ k ih =>
    rw [List.replicate_succ, List.cons_append,
      repl2_skip '\\' b b '\\' (List.replicate (k + 1) '\\' ++ b :: t) ?_, ih]
    · simp [List.replicate_succ]
    · intro y u hyu hcond
      obtain ⟨-, hyb⟩ := hcond
      subst hyb
      rw [List.replicate_succ, List.cons_append] at hyu
      injection hyu with h1 h2
      exact hb h1.symm

/-- The backslash-collapsing pass halves (rounding up) a backslash run
not followed by another backslash. -/
theorem repl2_bs3 (k : Nat) (l : List Char)
    (hl : ∀ x t, l = x :: t → x ≠ '\\') :
    repl2 '\\' '\\' '\\' (List.replicate k '\\' ++ l) =
      List.replicate ((k + 1) / 2) '\\' ++ repl2 '\\' '\\' '\\' l := by
  induction k using Nat.twoStepInduction with
  | zero => simp
  | one =>
    rw [show ((1 : Nat) + 1) / 2 = 1 from rfl]
    simp only [List.replicate, List.nil_append, List.cons_append]
    exact repl2_skip '\\' '\\' '\\' '\\' l (fun y t hyt h => hl y t hyt h.2)
  | more k ih1 ih2 =>
    rw [show List.replicate (k + 2) '\\' = '\\' :: '\\' :: List.replicate k '\\'
        from by simp [List.replicate_succ],
      List.cons_append, List.cons_append, repl2_hit, ih1]
    rw [show (k + 2 + 1) / 2 = (k + 1) / 2 + 1 from by omega]
    simp [List.replicate_succ]

/-- Single-pass unescaping of a backslash run followed by a
parenthesis: pairs collapse, an odd leftover backslash escapes the
parenthesis. -/
theorem specUnescape_bs_par (p : Char) (hp : p = '(' ∨ p = ')') (k : Nat)
    (t : List Char) :
    specUnescape (List.replicate k '\\' ++ p :: t) =
      List.replicate (k / 2) '\\' ++ p :: specUnescape t := by
  induction k using Nat.twoStepInduction with
  | zero =>
    have hpb : p ≠ '\\' := by rcases hp with rfl | rfl <;> decide
    simp [specUnescape_cons_other p t hpb]
  | one =>
    simp only [List.replicate, List.nil_append, List.cons_append]
    rw [specUnescape_esc p t (by tauto)]
  | more k ih1 ih2 =>
    rw [show List.replicate (k + 2) '\\' = '\\' :: '\\' :: List.replicate k '\\'
        from by simp [List.replicate_succ],
      List.cons_append, List.cons_append,
      specUnescape_esc '\\' _ (by tauto), ih1]
    rw [show (k + 2) / 2 = k / 2 + 1 from by omega]
    simp [List.replicate_succ]

/-- Single-pass unescaping of a backslash run followed by an ordinary
character: pairs collapse, an odd leftover backslash passes through. -/
theorem specUnescape_bs_other (c : Char) (h1 : c ≠ '(') (h2 : c ≠ ')')
    (h3 : c ≠ '\\') (k : Nat) (t : List Char) :
    specUnescape (List.replicate k '\\' ++ c :: t) =
      List.replicate ((k + 1) / 2) '\\' ++ c :: specUnescape t := by
  induction k using Nat.twoStepInduction with
  | zero => simp [specUnescape_cons_other c t h3]
  | one =>
    simp only [List.replicate, List.nil_append, List.cons_append]
    rw [specUnescape_bslash_other c t h1 h2 h3,
      specUnescape_cons_other c t h3]
  | more k ih1 ih2 =>
    rw [show List.replicate (k + 2) '\\' = '\\' :: '\\' :: List.replicate k '\\'
        from by simp [List.replicate_succ],
      List.cons_append, List.cons_append,
      specUnescape_esc '\\' _ (by tauto), ih1]
    rw [show (k + 2 + 1) / 2 = (k + 1) / 2 + 1 from by omega]
    simp [List.replicate_succ]

/-- Single-pass unescaping of a trailing backslash run. -/
theorem specUnescape_bs_nil (k : Nat) :
    specUnescape (List.replicate k '\\') =
      List.replicate ((k + 1) / 2) '\\' := by
  induction k using Nat.twoStepInduction with
  | zero => rfl
  | one => rfl
  | more k ih1 ih2 =>
    rw [show List.replicate (k + 2) '\\' = '\\' :: '\\' :: List.replicate k '\\'
        from by simp [List.replicate_succ],
      specUnescape_esc '\\' _ (by tauto), ih1]
    rw [show (k + 2 + 1) / 2 = (k + 1) / 2 + 1 from by omega]
    simp [List.replicate_succ]

theorem dropWhile_head_not (p : Char → Bool) (l : List Char) :
    ∀ x t, l.dropWhile p = x :: t → p x = false := by
  induction l with
  | nil =>
    intro x t h
    simp at h
  | cons c cs ih =>
    intro x t h
    rw [List.dropWhile_cons] at h
    by_cases hc : p c
    · rw [if_pos hc] at h
      exact ih x t h
    · rw [if_neg hc] at h
      injection h with h1 h2
      rw [← h1]
      simpa using hc

/-- Every character list splits into its maximal leading backslash run
and a remainder not starting with a backslash. -/
theorem exists_bs_decomp (l : List Char) :
    ∃ k l2, l = List.replicate k '\\' ++ l2 ∧
      ∀ x t, l2 = x :: t → x ≠ '\\' := by
  refine ⟨(l.takeWhile (fun c => c == '\\')).length,
    l.dropWhile (fun c => c == '\\'), ?_, ?_⟩
  · conv_lhs => rw [← List.takeWhile_append_dropWhile (fun c => c == '\\') l]
    congr 1
    apply List.eq_replicate_of_mem
    intro b hb
    have := List.mem_takeWhile_imp hb
    simpa using this
  · intro x t hxt
    have := dropWhile_head_not (fun c => c == '\\') l x t hxt
    simpa using this

/-- The three sequential replacement passes of `s_text` coincide with
the single-pass unescaping, by strong induction on the length after
splitting off the maximal leading backslash run. -/
theorem sTextL_eq_specUnescape_aux :
    ∀ (n : Nat) (l : List Char), l.length ≤ n →
      sTextL l = specUnescape l := by
  intro n
  induction n with
  | zero =>
    intro l hl
    have h0 : l = [] := List.eq_nil_of_length_eq_zero (Nat.le_zero.mp hl)
    subst h0
    rfl
  | succ n ih =>
    intro l hl
    obtain ⟨k, l2, hL, hhead⟩ := exists_bs_decomp l
    subst hL
    cases l2 with
    | nil =>
      have e1 : repl2 '\\' '(' '(' (List.replicate k '\\')
          = List.replicate k '\\' := by
        have h0 : repl2 '\\' '(' '(' ([] : List Char) = [] := rfl
        have := repl2_bs_pass '(' '(' (by decide) k []
          (fun x t h => by simp at h)
        simpa [h0] using this
      have e2 : repl2 '\\' ')' ')' (List.replicate k '\\')
          = List.replicate k '\\' := by
        have h0 : repl2 '\\' ')' ')' ([] : List Char) = [] := rfl
        have := repl2_bs_pass ')' ')' (by decide) k []
          (fun x t h => by simp at h)
        simpa [h0] using this
      have e3 : repl2 '\\' '\\' '\\' (List.replicate k '\\')
          = List.replicate ((k + 1) / 2) '\\' := by
        have h0 : repl2 '\\' '\\' '\\' ([] : List Char) = [] := rfl
        have := repl2_bs3 k [] (fun x t h => by simp at h)
        simpa [h0] using this
      rw [List.append_nil]
      unfold sTextL
      rw [e1, e2, e3, specUnescape_bs_nil k]
    | cons c t =>
      have hc : c ≠ '\\' := hhead c t rfl
      have hlen2 : t.length ≤ n := by
        simp only [List.length_append, List.length_replicate,
          List.length_cons] at hl
        omega
      have iht := ih t hlen2
      by_cases h1 : c = '('
      · subst h1
        unfold sTextL
        cases k with
        | zero =>
          simp only [List.replicate_zero, List.nil_append]
          rw [repl2_skip_head '\\' '(' '(' '(' t (by decide),
            repl2_skip_head '\\' ')' ')' '(' _ (by decide),
            repl2_skip_head '\\' '\\' '\\' '(' _ (by decide),
            specUnescape_cons_other '(' t (by decide)]
          show ('(' : Char) :: sTextL t = '(' :: specUnescape t
          rw [iht]
        | succ k2 =>
          rw [repl2_bs_hit '(' (by decide) k2 t,
            repl2_bs_pass ')' ')' (by decide) k2
              ('(' :: repl2 '\\' '(' '(' t) (fun x u h => by cases h; decide),
            repl2_skip_head '\\' ')' ')' '(' _ (by decide),
            repl2_bs3 k2 ('(' :: repl2 '\\' ')' ')' (repl2 '\\' '(' '(' t))
              (fun x u h => by cases h; decide),
            repl2_skip_head '\\' '\\' '\\' '(' _ (by decide),
            specUnescape_bs_par '(' (Or.inl rfl) (k2 + 1) t]
          show List.replicate ((k2 + 1) / 2) '\\' ++ '(' :: sTextL t
              = List.replicate ((k2 + 1) / 2) '\\' ++ '(' :: specUnescape t
          rw [iht]
      · by_cases h2 : c = ')'
        · subst h2
          unfold sTextL
          rw [repl2_bs_pass '(' '(' (by decide) k (')' :: t)
              (fun x u h => by cases h; decide),
            repl2_skip_head '\\' '(' '(' ')' t (by decide)]
          cases k with
          | zero =>
            simp only [List.replicate_zero, List.nil_append]
            rw [repl2_skip_head '\\' ')' ')' ')' _ (by decide),
              repl2_skip_head '\\' '\\' '\\' ')' _ (by decide),
              specUnescape_cons_other ')' t (by decide)]
            show (')' : Char) :: sTextL t = ')' :: specUnescape t
            rw [iht]
          | succ k2 =>
            rw [repl2_bs_hit ')' (by decide) k2 (repl2 '\\' '(' '(' t),
              repl2_bs3 k2 (')' :: repl2 '\\' ')' ')' (repl2 '\\' '(' '(' t))
                (fun x u h => by cases h; decide),
              repl2_skip_head '\\' '\\' '\\' ')' _ (by decide),
              specUnescape_bs_par ')' (Or.inr rfl) (k2 + 1) t]
            show List.replicate ((k2 + 1) / 2) '\\' ++ ')' :: sTextL t
                = List.replicate ((k2 + 1) / 2) '\\' ++ ')' :: specUnescape t
            rw [iht]
        · unfold sTextL
          rw [repl2_bs_pass '(' '(' (by decide) k (c :: t)
              (fun x u h => by cases h; exact h1),
            repl2_skip_head '\\' '(' '(' c t hc,
            repl2_bs_pass ')' ')' (by decide) k (c :: repl2 '\\' '(' '(' t)
              (fun x u h => by cases h; exact h2),
            repl2_skip_head '\\' ')' ')' c _ hc,
            repl2_bs3 k (c :: repl2 '\\' ')' ')' (repl2 '\\' '(' '(' t))
              (fun x u h => by cases h; exact hc),
            repl2_skip_head '\\' '\\' '\\' c _ hc,
            specUnescape_bs_other c h1 h2 hc k t]
          show List.replicate ((k + 1) / 2) '\\' ++ c :: sTextL t
              = List.replicate ((k + 1) / 2) '\\' ++ c :: specUnescape t
          rw [iht]

/-- C7: the literal-text unescape of `s_text` rewrites exactly the three
two-character sequences `\(`, `\)`, `\\` to `(`, `)`, `\` and passes
every other `\x` through unchanged (the three sequential replacement
passes equal the spec's single left-to-right pass); in particular
`evaluate("\(a\)", {})` returns `"(a)"`. -/
theorem tagz_unescape_exact :
    (∀ l : List Char, sTextL l = specUnescape l) ∧
    evaluate "\\(a\\)" [] = (.ok "(a)", []) := by
  refine ⟨?_, by decide⟩
  intro l
  exact sTextL_eq_specUnescape_aux l.length l (le_refl _)
